import Mathlib

/-!
Verification of the go-restic-wrapper library: a shallow embedding of the
command-construction, execution and output-interpretation pipeline
(`repo.go`, `restic.go`, `snapshots.go`, `filter/filter.go`, and the legacy
`backup`/`forget`/`filter` sub-packages), together with theorems settling the
specification claims about it.

Conventions of the embedding:
* Go strings are Lean `String`s; Go byte slices are `List Nat` (each entry a
  byte value, reduced mod 256 where it matters).
* Go errors are the inductive `GoErr`.  The sentinel errors of `errors.go`
  are dedicated constructors; `errors.New` / `fmt.Errorf` values are `.msg`
  (resp. `.genericFailure`, `.notFound` for the two formatted messages whose
  payload matters to a claim).
* Fallible Go functions return `Except GoErr _` or `Option _`.
* Filesystem state is passed explicitly as the list of existing paths.
-/

namespace ResticW

/-- Errors of the library (`errors.go` sentinels plus ad-hoc
`errors.New`/`fmt.Errorf` values).  `genericFailure raw` models
`fmt.Errorf ("restic command failed: %s", raw)`; `notFound id` models
`fmt.Errorf ("no snapshot with id %s", id)`; `msg s` models `errors.New s`. -/
inductive GoErr where
  | repoExists
  | invalidPassword
  | repoNotFound
  | repoLocked
  | invalidID
  | genericFailure (raw : String)
  | notFound (id : String)
  | msg (s : String)
  deriving DecidableEq, Repr

/-- Go `strings.Contains s sub`: `sub` occurs as a contiguous substring of `s`
(case-sensitive, byte-for-byte). -/
def goContains (s sub : String) : Bool :=
  decide (List.IsInfix sub.toList s.toList)

/-- Embedding of `parseStdErr` (repo.go): ordered, case-sensitive substring
checks over the captured stderr text, first match wins, with a generic
failure carrying the raw text when nothing matches. -/
def parseStdErr (stdErr : String) : GoErr :=
  if goContains stdErr ("config file already exists") then GoErr.repoExists
  else if goContains stdErr ("wrong password") || goContains stdErr ("invalid password") then
    GoErr.invalidPassword
  else if goContains stdErr ("Is there a repository at the following location?") then
    GoErr.repoNotFound
  else if goContains stdErr ("unable to create lock in backend") ||
      goContains stdErr ("repository is already locked") then
    GoErr.repoLocked
  else if goContains stdErr ("returned error, retrying after") then
    GoErr.invalidID
  else
    GoErr.genericFailure stdErr

/-- The classifier's fixed table, in the order the code checks it: each row is
the list of matching substrings together with the resulting typed error. -/
def classifierTable : List (List String × GoErr) :=
  [ (["config file already exists"], GoErr.repoExists),
    (["wrong password", "invalid password"], GoErr.invalidPassword),
    (["Is there a repository at the following location?"], GoErr.repoNotFound),
    (["unable to create lock in backend", "repository is already locked"], GoErr.repoLocked),
    (["returned error, retrying after"], GoErr.invalidID) ]

/-- C2: for every stderr text, `parseStdErr` behaves as first-match-wins
lookup in the ordered, case-sensitive substring table `classifierTable`,
falling back to a generic failure that carries the raw stderr text. -/
theorem parseStdErr_table (s : String) :
    parseStdErr s =
      (match classifierTable.find? (fun row => row.1.any (fun sub => goContains s sub)) with
        | some row => row.2
        | none => GoErr.genericFailure s) := by
  simp only [parseStdErr, classifierTable, List.find?, List.any]
  by_cases h1 : goContains s ("config file already exists") <;>
    by_cases h2 : goContains s ("wrong password") <;>
      by_cases h3 : goContains s ("invalid password") <;>
        simp [h1, h2, h3] <;>
    by_cases h4 : goContains s ("Is there a repository at the following location?") <;>
      simp [h4] <;>
    by_cases h5 : goContains s ("unable to create lock in backend") <;>
      by_cases h6 : goContains s ("repository is already locked") <;>
        simp [h5, h6] <;>
    by_cases h7 : goContains s ("returned error, retrying after") <;>
      simp [h7]

/-! ### Argument compilers (filter/filter.go and the legacy sub-packages) -/

/-- Option record of the root-package backup compiler (`backupOptions`,
filter/filter.go). -/
structure backupOptions where
  host : String := ""
  tags : List String := []
  exclude : List String := []
  «include» : List String := []
  deriving DecidableEq, Repr

/-- Embedding of `backupOptions.args` (filter/filter.go): host pair, then tag
pairs, then exclude pairs, then include pairs, each list in caller order. -/
def backupOptions.args (opts : backupOptions) : List String :=
  let args : List String := []
  let args := if opts.host != "" then args ++ ["--host", opts.host] else args
  let args := opts.tags.foldl (fun a t => a ++ ["--tag", t]) args
  let args := opts.exclude.foldl (fun a e => a ++ ["--exclude", e]) args
  let args := opts.«include».foldl (fun a i => a ++ ["--include", i]) args
  args

/-- Option record of the legacy `backup` sub-package (`options`). -/
structure backupPkgOptions where
  host : String := ""
  path : String := ""
  tags : List String := []
  exclude : List String := []
  «include» : List String := []
  deriving DecidableEq, Repr

/-- Embedding of the legacy `backup` package's `options.args`: host pair, then
tag pairs, then exclude pairs — the collected include patterns are never
emitted (there is no include loop in that function). -/
def backupPkgOptions.args (opts : backupPkgOptions) : List String :=
  let args : List String := []
  let args := if opts.host != "" then args ++ ["--host", opts.host] else args
  let args := opts.tags.foldl (fun a t => a ++ ["--tag", t]) args
  let args := opts.exclude.foldl (fun a e => a ++ ["--exclude", e]) args
  args

/-- Option record for snapshot filtering (`filterOptions`, filter/filter.go). -/
structure filterOptions where
  hosts : List String := []
  paths : List String := []
  tags : List String := []
  latest : Nat := 0
  deriving DecidableEq, Repr

/-- Embedding of `filterOptions.args` (filter/filter.go). -/
def filterOptions.args (opts : filterOptions) : List String :=
  let args : List String := []
  let args := opts.hosts.foldl (fun a h => a ++ ["--host", h]) args
  let args := opts.paths.foldl (fun a p => a ++ ["--path", p]) args
  let args := opts.tags.foldl (fun a t => a ++ ["--tag", t]) args
  let args := if 0 < opts.latest then args ++ ["--latest", toString opts.latest] else args
  args

/-- Option record for the forget operation (`forgetOptions`, filter/filter.go;
the legacy `forget` sub-package's `options.args` is line-for-line the same). -/
structure forgetOptions where
  id : String := ""
  hosts : List String := []
  paths : List String := []
  tags : List String := []
  prune : Bool := false
  keepLast : Nat := 0
  deriving DecidableEq, Repr

/-- Embedding of `forgetOptions.args` (filter/filter.go): the snapshot id is
emitted first as a bare token when set, then host/path/tag pairs, then the
keep-last pair when positive, then the prune flag last. -/
def forgetOptions.args (opts : forgetOptions) : List String :=
  let args : List String := []
  let args := if opts.id != "" then args ++ [opts.id] else args
  let args := opts.hosts.foldl (fun a h => a ++ ["--host", h]) args
  let args := opts.paths.foldl (fun a p => a ++ ["--path", p]) args
  let args := opts.tags.foldl (fun a t => a ++ ["--tag", t]) args
  let args := if 0 < opts.keepLast then args ++ ["--keep-last", toString opts.keepLast] else args
  let args := if opts.prune then args ++ ["--prune"] else args
  args

/-- Option record for the restore operation (`restoreOptions`,
filter/filter.go). -/
structure restoreOptions where
  hosts : List String := []
  paths : List String := []
  tags : List String := []
  exclude : List String := []
  «include» : List String := []
  deriving DecidableEq, Repr

/-- Embedding of `restoreOptions.args` (filter/filter.go). -/
def restoreOptions.args (opts : restoreOptions) : List String :=
  let args : List String := []
  let args := opts.hosts.foldl (fun a h => a ++ ["--host", h]) args
  let args := opts.paths.foldl (fun a p => a ++ ["--path", p]) args
  let args := opts.tags.foldl (fun a t => a ++ ["--tag", t]) args
  let args := opts.exclude.foldl (fun a e => a ++ ["--exclude", e]) args
  let args := opts.«include».foldl (fun a i => a ++ ["--include", i]) args
  args

/-- Appending elementwise via a left fold produces the initial segment followed
by the flattened per-element contributions. -/
theorem foldl_append_bind {α β : Type} (g : α → List β) :
    ∀ (l : List α) (init : List β),
      l.foldl (fun a x => a ++ g x) init = init ++ l.flatMap g
  | [], init => by simp
  | x :: xs, init => by
    rw [List.foldl_cons, foldl_append_bind g xs (init ++ g x)]
    simp

/-- C4: the compiled forget argument vector is the bare snapshot id (when
set), then the host, path and tag flag/value pairs in caller order, then the
keep-last pair exactly when the count is positive, then the prune flag last
exactly when pruning is enabled. -/
theorem forgetOptions_args_spec (opts : forgetOptions) :
    opts.args =
      (if opts.id = "" then [] else [opts.id])
        ++ opts.hosts.flatMap (fun h => ["--host", h])
        ++ opts.paths.flatMap (fun p => ["--path", p])
        ++ opts.tags.flatMap (fun t => ["--tag", t])
        ++ (if 0 < opts.keepLast then ["--keep-last", toString opts.keepLast] else [])
        ++ (if opts.prune then ["--prune"] else []) := by
  unfold forgetOptions.args
  dsimp only
  rw [foldl_append_bind, foldl_append_bind, foldl_append_bind]
  by_cases hid : opts.id = "" <;>
    by_cases hk : 0 < opts.keepLast <;>
      by_cases hp : opts.prune <;>
        simp [hid, hk, hp, List.append_assoc]

/-- C5: the legacy `backup` package's argument compiler silently drops the
include patterns that `WithIncludes` collected, while the root package's
`backupOptions.args` emits one `--include` pair per pattern as documented;
evaluated at a record holding exactly one include pattern. -/
theorem backupPkg_args_drop_includes :
    backupPkgOptions.args
        { host := "", path := "", tags := [], exclude := [], «include» := ["*.go"] } = []
      ∧ backupOptions.args
        { host := "", tags := [], exclude := [], «include» := ["*.go"] } =
          ["--include", "*.go"] := by
  constructor <;> rfl

/-! ### Snapshots and SnapshotById (repo.go) -/

/-- Argument vector issued by `Repository.Snapshots` (repo.go): read-only
no-lock listing plus the compiled filter options. -/
def snapshotsArgs (opts : filterOptions) : List String :=
  ["--no-lock", "snapshots", "--json"] ++ opts.args

/-- Argument vector issued by `Repository.SnapshotById` (repo.go). -/
def snapshotByIdArgs (id : String) : List String :=
  ["snapshots", "--json", id]

/-- Post-deserialization step of `Repository.SnapshotById` (repo.go): fail
with the not-found error when the decoded array is empty, otherwise return
its first record.  The element type is abstract because JSON decoding of
snapshot records happens outside this function. -/
def snapshotByIdSelect {α : Type} (id : String) (snapshots : List α) : Except GoErr α :=
  match snapshots with
  | [] => Except.error (GoErr.notFound id)
  | x :: _ => Except.ok x

/-- C7 counterexample: `SnapshotById` does not issue the same invocation as
`Snapshots` with the id appended — it omits the `--no-lock` flag that
`Snapshots` passes. -/
theorem snapshotByIdArgs_ne_snapshotsArgs :
    snapshotByIdArgs "abc12345" ≠
        snapshotsArgs { hosts := [], paths := [], tags := [], latest := 0 } ++ ["abc12345"]
      ∧ "--no-lock" ∈ snapshotsArgs { hosts := [], paths := [], tags := [], latest := 0 }
      ∧ "--no-lock" ∉ snapshotByIdArgs "abc12345" := by
  refine ⟨by decide, by decide, by decide⟩

/-- C7 (amended): `SnapshotById` issues the `snapshots --json` invocation with
the id appended but without the `--no-lock` flag `Snapshots` uses, and after
deserializing the JSON array it fails with the not-found error exactly when
the array is empty, otherwise returning the first record. -/
theorem snapshotById_spec {α : Type} (id : String) (x : α) (rest : List α) :
    snapshotByIdArgs id = ["snapshots", "--json"] ++ [id]
      ∧ "--no-lock" ∈ snapshotsArgs { hosts := [], paths := [], tags := [], latest := 0 }
      ∧ snapshotByIdSelect id ([] : List α) = Except.error (GoErr.notFound id)
      ∧ snapshotByIdSelect id (x :: rest) = Except.ok x := by
  exact ⟨rfl, by decide, rfl, rfl⟩

/-! ### Snapshot-reference validator (repo.go: idRegex / isSnapshotID)

The anchored RE2 pattern
latest with an optional colon suffix, or 8 or 64 lowercase-hex characters
with an optional colon suffix, where the suffix after the colon is matched by
a dot-star and an RE2 dot matches any character except a newline. -/

/-- The character class `[0-9a-f]` of `idRegex`. -/
def isLowerHexDigit (c : Char) : Bool :=
  (('0' ≤ c) && (c ≤ '9')) || (('a' ≤ c) && (c ≤ 'f'))

/-- RE2 suffix `(:.*)?$` with the multiline flag off: either nothing remains,
or a colon followed by characters none of which is a newline. -/
def tailOK (cs : List Char) : Bool :=
  match cs with
  | [] => true
  | c :: rest => (c == ':') && rest.all (fun d => d != '\n')

/-- Strips a literal prefix, returning what remains. -/
def stripLit : List Char → List Char → Option (List Char)
  | [], cs => some cs
  | _ :: _, [] => none
  | l :: ls, c :: cs => if c == l then stripLit ls cs else none

/-- Strips exactly `n` lowercase-hex characters, returning what remains. -/
def stripHex : Nat → List Char → Option (List Char)
  | 0, cs => some cs
  | _ + 1, [] => none
  | n + 1, c :: cs => if isLowerHexDigit c then stripHex n cs else none

/-- One anchored alternative `^lit(:.*)?$` of `idRegex`. -/
def matchLit (lit : List Char) (cs : List Char) : Bool :=
  match stripLit lit cs with
  | some rest => tailOK rest
  | none => false

/-- One anchored alternative of `idRegex` for `n` hex characters. -/
def matchHex (n : Nat) (cs : List Char) : Bool :=
  match stripHex n cs with
  | some rest => tailOK rest
  | none => false

/-- Embedding of `isSnapshotID` (repo.go): the string matches `idRegex`, i.e.
one of the three anchored alternatives. -/
def isSnapshotID (s : String) : Bool :=
  matchLit ("latest".toList) s.toList || matchHex 8 s.toList || matchHex 64 s.toList

/-- Declarative form of the optional colon suffix: nothing, or a colon
followed by a newline-free remainder. -/
def TailGrammar (t : List Char) : Prop :=
  t = [] ∨ ∃ u, t = ':' :: u ∧ ∀ c ∈ u, c ≠ '\n'

/-- Declarative form of the accepted snapshot-reference grammar: `latest`, or
8 or 64 lowercase-hex characters, each optionally followed by a colon and a
newline-free sub-path. -/
def SnapshotIDGrammar (s : String) : Prop :=
  (∃ t, s.toList = "latest".toList ++ t ∧ TailGrammar t)
    ∨ (∃ h t, h.length = 8 ∧ (∀ c ∈ h, isLowerHexDigit c = true)
        ∧ s.toList = h ++ t ∧ TailGrammar t)
    ∨ (∃ h t, h.length = 64 ∧ (∀ c ∈ h, isLowerHexDigit c = true)
        ∧ s.toList = h ++ t ∧ TailGrammar t)

theorem tailOK_iff (t : List Char) : tailOK t = true ↔ TailGrammar t := by
  cases t with
  | nil => simp [tailOK, TailGrammar]
  | cons c rest =>
    simp only [tailOK, TailGrammar, Bool.and_eq_true, beq_iff_eq, List.all_eq_true,
      bne_iff_ne, ne_eq, List.cons.injEq, reduceCtorEq, false_or]
    constructor
    · rintro ⟨rfl, h⟩
      exact ⟨rest, ⟨rfl, rfl⟩, fun c hc => h c hc⟩
    · rintro ⟨u, ⟨rfl, rfl⟩, h⟩
      exact ⟨rfl, fun c hc => h c hc⟩

theorem stripLit_eq_some (lit : List Char) :
    ∀ (cs rest : List Char), stripLit lit cs = some rest ↔ cs = lit ++ rest := by
  induction lit with
  | nil => intro cs rest; simp [stripLit, eq_comm]
  | cons l ls ih =>
    intro cs rest
    cases cs with
    | nil => simp [stripLit]
    | cons c cs' =>
      simp only [stripLit, List.cons_append, List.cons.injEq]
      by_cases hc : c = l
      · simp [hc, ih]
      · simp [hc]

theorem stripHex_eq_some (n : Nat) :
    ∀ (cs rest : List Char), stripHex n cs = some rest ↔
      ∃ h, h.length = n ∧ (∀ c ∈ h, isLowerHexDigit c = true) ∧ cs = h ++ rest := by
  induction n with
  | zero =>
    intro cs rest
    simp only [stripHex, Option.some.injEq]
    constructor
    · rintro rfl; exact ⟨[], rfl, by simp, rfl⟩
    · rintro ⟨h, hlen, _, rfl⟩
      rw [List.length_eq_zero] at hlen
      simp [hlen]
  | succ n ih =>
    intro cs rest
    cases cs with
    | nil =>
      simp only [stripHex, reduceCtorEq, false_iff]
      rintro ⟨h, hlen, _, habs⟩
      exact absurd habs.symm (by simp [← List.length_eq_zero]; omega)
    | cons c cs' =>
      simp only [stripHex]
      by_cases hc : isLowerHexDigit c
      · simp only [hc, if_true, ih]
        constructor
        · rintro ⟨h, hlen, hhex, rfl⟩
          exact ⟨c :: h, by simp [hlen], by
            intro d hd
            rcases List.mem_cons.mp hd with rfl | hd
            · exact hc
            · exact hhex d hd, rfl⟩
        · rintro ⟨h, hlen, hhex, heq⟩
          cases h with
          | nil => simp at hlen
          | cons c0 h' =>
            simp only [List.cons_append, List.cons.injEq] at heq
            obtain ⟨rfl, rfl⟩ := heq
            exact ⟨h', by simpa using hlen,
              fun d hd => hhex d (List.mem_cons_of_mem _ hd), rfl⟩
      · simp only [hc, if_false, reduceCtorEq, false_iff]
        rintro ⟨h, hlen, hhex, heq⟩
        cases h with
        | nil => simp at hlen
        | cons c0 h' =>
          simp only [List.cons_append, List.cons.injEq] at heq
          exact absurd (heq.1 ▸ hhex c0 (List.mem_cons_self c0 h')) (by simpa using hc)

theorem matchLit_iff (lit cs : List Char) :
    matchLit lit cs = true ↔ ∃ t, cs = lit ++ t ∧ TailGrammar t := by
  unfold matchLit
  cases hs : stripLit lit cs with
  | none =>
    simp only [reduceCtorEq, false_iff]
    rintro ⟨t, rfl, _⟩
    rw [show stripLit lit (lit ++ t) = some t from (stripLit_eq_some lit _ t).mpr rfl] at hs
    exact absurd hs (by simp)
  | some rest =>
    rw [tailOK_iff]
    have hcs := (stripLit_eq_some lit cs rest).mp hs
    constructor
    · exact fun h => ⟨rest, hcs, h⟩
    · rintro ⟨t, heq, ht⟩
      have : rest = t := by
        subst hcs
        exact List.append_cancel_left (heq)
      exact this ▸ ht

theorem matchHex_iff (n : Nat) (cs : List Char) :
    matchHex n cs = true ↔
      ∃ h t, h.length = n ∧ (∀ c ∈ h, isLowerHexDigit c = true)
        ∧ cs = h ++ t ∧ TailGrammar t := by
  unfold matchHex
  cases hs : stripHex n cs with
  | none =>
    simp only [reduceCtorEq, false_iff]
    rintro ⟨h, t, hlen, hhex, rfl, _⟩
    rw [(stripHex_eq_some n _ t).mpr ⟨h, hlen, hhex, rfl⟩] at hs
    exact absurd hs (by simp)
  | some rest =>
    rw [tailOK_iff]
    obtain ⟨h, hlen, hhex, hcs⟩ := (stripHex_eq_some n cs rest).mp hs
    constructor
    · exact fun hok => ⟨h, rest, hlen, hhex, hcs, hok⟩
    · rintro ⟨h', t, hlen', hhex', heq, ht⟩
      subst hcs
      have hlh : h.length = h'.length := by rw [hlen, hlen']
      have := (List.append_inj heq hlh).2
      exact this ▸ ht

/-- The validator accepts exactly the strings of the declarative grammar. -/
theorem isSnapshotID_iff_grammar (s : String) :
    isSnapshotID s = true ↔ SnapshotIDGrammar s := by
  unfold isSnapshotID SnapshotIDGrammar
  rw [Bool.or_eq_true, Bool.or_eq_true, matchLit_iff, matchHex_iff, matchHex_iff]
  exact or_assoc

/-! ### Restore input validation (repo.go: Repository.Restore)

`Restore` runs a prefix of pure validation and filesystem effects before it
spawns the subprocess.  The filesystem is modelled as the list of existing
paths; `os.Stat`-based existence is membership and `os.MkdirAll` records the
target and its parent directories as existing (its error path is not
modelled).  The embedding covers the function up to the point where the
subprocess would be launched. -/

/-- Embedding of `isPathExists` (repo.go) over the explicit filesystem. -/
def isPathExists (fs : List String) (p : String) : Bool :=
  fs.contains p

/-- Proper ancestor directories of a slash-separated path. -/
def parentDirs (p : String) : List String :=
  let parts := p.splitOn "/"
  (List.range (parts.length - 1)).map (fun i => String.intercalate "/" (parts.take (i + 1)))

/-- Model of `os.MkdirAll`: the target path and all its parent directories
exist afterwards. -/
def mkdirAll (fs : List String) (p : String) : List String :=
  p :: parentDirs p ++ fs

/-- Outcome of the pre-subprocess prefix of `Restore`: either an error
returned to the caller before any subprocess is spawned, or the argument
vector of the subprocess that would be launched. -/
inductive RestoreOutcome where
  | err (e : GoErr)
  | spawn (args : List String)
  deriving DecidableEq, Repr

/-- Embedding of the pre-subprocess prefix of `Repository.Restore` (repo.go):
reject an empty target, create the target directory if absent, reject an
empty snapshot id with a plain error, reject a reference `idRegex` refuses
with `ErrInvalidID`, and otherwise hand the compiled argument vector to the
subprocess layer.  Returns the filesystem as left behind together with the
outcome. -/
def restorePre (fs : List String) (snapshotID target : String) (opts : restoreOptions) :
    List String × RestoreOutcome :=
  if target = "" then (fs, RestoreOutcome.err (GoErr.msg "no target path"))
  else
    let fs2 := if isPathExists fs target then fs else mkdirAll fs target
    if snapshotID = "" then (fs2, RestoreOutcome.err (GoErr.msg "empty snapshot id"))
    else if isSnapshotID snapshotID = false then (fs2, RestoreOutcome.err GoErr.invalidID)
    else (fs2, RestoreOutcome.spawn
      (["restore", snapshotID, "--target", target, "--json"] ++ opts.args))

/-- C3 counterexample: the claim fails at the empty identifier.  The
validator rejects the empty string, yet `Restore` returns the plain
`errors.New "empty snapshot id"` value, not the typed `ErrInvalidID`; and it
fails at `"latest:" ++ "\n"`, a `latest` reference whose sub-path is a bare
newline: the claim accepts an arbitrary sub-path after the colon, but the
RE2 dot of `idRegex` never matches a newline, so the validator rejects it. -/
theorem restore_empty_id_counterexample :
    isSnapshotID "" = false
      ∧ (restorePre [] "" "/restore" { }).2 = RestoreOutcome.err (GoErr.msg "empty snapshot id")
      ∧ GoErr.msg "empty snapshot id" ≠ GoErr.invalidID
      ∧ isSnapshotID ("latest:" ++ "\n") = false := by
  refine ⟨by decide, by decide, by decide, by decide⟩

/-- C3 (amended): the validator accepts exactly the literal `latest`, an
8-character lowercase-hex token, or a 64-character lowercase-hex token, each
optionally suffixed with a colon and an arbitrary newline-free sub-path (and
hence rejects the empty string, wrong-length hex tokens and tokens with
non-hex characters); and for every nonempty identifier the validator
rejects, `Restore` fails fast with the typed `ErrInvalidID` before any
subprocess is spawned, while the empty identifier — also rejected by the
validator — is instead refused with the plain "empty snapshot id" error. -/
theorem restore_rejects_invalid_id :
    (∀ s : String, isSnapshotID s = true ↔ SnapshotIDGrammar s)
      ∧ (∀ (fs : List String) (id target : String) (opts : restoreOptions),
          target ≠ "" → id ≠ "" → isSnapshotID id = false →
            (restorePre fs id target opts).2 = RestoreOutcome.err GoErr.invalidID)
      ∧ (∀ (fs : List String) (target : String) (opts : restoreOptions),
          target ≠ "" →
            (restorePre fs "" target opts).2 = RestoreOutcome.err (GoErr.msg "empty snapshot id")) := by
  refine ⟨isSnapshotID_iff_grammar, ?_, ?_⟩
  · intro fs id target opts htarget hid hbad
    simp only [restorePre, htarget, if_false, hid, hbad]
    simp
  · intro fs target opts htarget
    simp only [restorePre, htarget, if_false]
    simp

/-- Witness for `restore_rejects_invalid_id` at concrete inputs: the
reference `"not-hex!"` is rejected and `Restore` answers with `ErrInvalidID`,
while the empty reference gets the plain "empty snapshot id" error. -/
theorem restore_rejects_invalid_id_witness :
    (restorePre [] "not-hex!" "/restore" { }).2 = RestoreOutcome.err GoErr.invalidID
      ∧ (restorePre [] "" "/restore" { }).2
          = RestoreOutcome.err (GoErr.msg "empty snapshot id") :=
  ⟨restore_rejects_invalid_id.2.1 [] "not-hex!" "/restore" { } (by decide) (by decide) (by decide),
    restore_rejects_invalid_id.2.2 [] "/restore" { } (by decide)⟩

/-- C9: `Restore` creates an absent target directory (with its parents)
before validating the snapshot identifier, so with a rejected nonempty
identifier it returns `ErrInvalidID` with the filesystem already changed —
the target and its parents exist on the error path — and the empty
identifier specifically is answered by the plain "empty snapshot id" error,
which is not the typed `ErrInvalidID`, again after the directory was
created. -/
theorem restore_mkdir_before_validation :
    (∀ (fs : List String) (id target : String) (opts : restoreOptions),
        target ≠ "" → isPathExists fs target = false → id ≠ "" → isSnapshotID id = false →
          restorePre fs id target opts = (mkdirAll fs target, RestoreOutcome.err GoErr.invalidID)
            ∧ isPathExists (mkdirAll fs target) target = true
            ∧ (∀ q ∈ parentDirs target, isPathExists (mkdirAll fs target) q = true)
            ∧ mkdirAll fs target ≠ fs)
      ∧ (∀ (fs : List String) (target : String) (opts : restoreOptions),
          target ≠ "" → isPathExists fs target = false →
            restorePre fs "" target opts
                = (mkdirAll fs target, RestoreOutcome.err (GoErr.msg "empty snapshot id"))
              ∧ GoErr.msg "empty snapshot id" ≠ GoErr.invalidID) := by
  constructor
  · intro fs id target opts htarget habsent hid hbad
    refine ⟨?_, ?_, ?_, ?_⟩
    · simp only [restorePre, htarget, if_false, habsent, hid, hbad]
      simp
    · simp [isPathExists, mkdirAll]
    · intro q hq
      simp [isPathExists, mkdirAll, List.mem_append, hq]
    · intro hEq
      have : isPathExists fs target = true := by
        rw [← hEq]
        simp [isPathExists, mkdirAll]
      rw [habsent] at this
      exact absurd this (by decide)
  · intro fs target opts htarget habsent
    refine ⟨?_, by decide⟩
    simp only [restorePre, htarget, if_false, habsent]
    simp

/-- Witness for `restore_mkdir_before_validation` at concrete inputs: with an
initially empty filesystem, restoring `"zz"` into `/a/b` fails with
`ErrInvalidID` after `/a/b` (and its parent `/a`) were created, and restoring
the empty reference fails with the plain error likewise after creation. -/
theorem restore_mkdir_before_validation_witness :
    (restorePre [] "zz" "/a/b" { } = (mkdirAll [] "/a/b", RestoreOutcome.err GoErr.invalidID)
        ∧ isPathExists (mkdirAll [] "/a/b") "/a/b" = true
        ∧ (∀ q ∈ parentDirs "/a/b", isPathExists (mkdirAll [] "/a/b") q = true)
        ∧ mkdirAll [] "/a/b" ≠ [])
      ∧ (restorePre [] "" "/a/b" { }
            = (mkdirAll [] "/a/b", RestoreOutcome.err (GoErr.msg "empty snapshot id"))
          ∧ GoErr.msg "empty snapshot id" ≠ GoErr.invalidID) :=
  ⟨restore_mkdir_before_validation.1 [] "zz" "/a/b" { } (by decide) (by decide) (by decide)
      (by decide),
    restore_mkdir_before_validation.2 [] "/a/b" { } (by decide) (by decide)⟩

/-! ### Summary extraction (repo.go: getSummary)

`getSummary` scans the captured stdout with a `bufio.Scanner` using the
line-splitting rule, tries to decode each line's `message_type`
discriminator, returns the first line whose discriminator is `summary`, and
otherwise remembers the last line containing the `"tags":` marker.  The JSON
decoding step (`json.Unmarshal` into a struct with one `message_type` field)
is external to the scan; it is abstracted as a function `msgType` returning
`none` when the line is not a JSON object and the decoded field otherwise. -/

/-- Line splitting of `bufio.ScanLines`: newline-terminated lines, a final
unterminated fragment is a line, and a trailing carriage return is stripped
from each line. -/
def scanLines (s : String) : List String :=
  let parts := s.splitOn "\n"
  let parts := if parts.getLast? = some "" then parts.dropLast else parts
  parts.map (fun l => if l.endsWith "\r" then l.dropRight 1 else l)

/-- The fallback marker check of `getSummary`: the raw line contains the
substring `"tags":` (used by the forget command's output). -/
def hasTagsMarker (l : String) : Bool :=
  goContains l ("\"tags\":")

/-- Scan loop of `getSummary` (repo.go), with the decoded discriminator
abstracted as `msgType` and the last tags-bearing line carried in `acc`. -/
def getSummaryLoop (msgType : String → Option String) :
    List String → Option String → Except GoErr String
  | [], none => Except.error (GoErr.msg "no summary found in output")
  | [], some l => Except.ok l
  | line :: rest, acc =>
    if msgType line = some "summary" then Except.ok line
    else getSummaryLoop msgType rest (if hasTagsMarker line then some line else acc)

/-- Embedding of `getSummary` (repo.go). -/
def getSummary (msgType : String → Option String) (output : String) : Except GoErr String :=
  getSummaryLoop msgType (scanLines output) none

theorem getSummaryLoop_spec (msgType : String → Option String) :
    ∀ (lines : List String) (acc : Option String),
      getSummaryLoop msgType lines acc =
        match lines.find? (fun l => msgType l == some "summary") with
        | some l => Except.ok l
        | none =>
          match ((lines.filter hasTagsMarker).getLast?).or acc with
          | some l => Except.ok l
          | none => Except.error (GoErr.msg "no summary found in output")
  | [], none => rfl
  | [], some _ => rfl
  | line :: rest, acc => by
    by_cases hsum : msgType line = some "summary"
    · simp [getSummaryLoop, hsum, List.find?_cons]
    · have hbeq : (msgType line == some "summary") = false := by
        simpa using hsum
      rw [getSummaryLoop, if_neg hsum, getSummaryLoop_spec msgType rest
        (if hasTagsMarker line then some line else acc)]
      rw [List.find?_cons, hbeq]
      by_cases htag : hasTagsMarker line
      · simp only [htag, if_true, List.filter_cons_of_pos htag]
        cases hlast : (rest.filter hasTagsMarker).getLast? with
        | none =>
          rw [List.getLast?_cons, hlast]
          simp
        | some l' =>
          rw [List.getLast?_cons, hlast]
          simp
      · simp only [htag, if_false, List.filter_cons_of_neg (by simpa using htag)]
        simp

/-- C1: for every decoded-discriminator assignment and every raw output text,
`getSummary` returns verbatim the first scanned line whose discriminator is
`summary`; when no scanned line has that discriminator value it returns the
last scanned line containing the `"tags":` marker; and when the input is
empty or neither rule finds a line it fails with the "no summary found"
error. -/
theorem getSummary_spec (msgType : String → Option String) (output : String) :
    getSummary msgType output =
      match (scanLines output).find? (fun l => msgType l == some "summary") with
      | some l => Except.ok l
      | none =>
        match ((scanLines output).filter hasTagsMarker).getLast? with
        | some l => Except.ok l
        | none => Except.error (GoErr.msg "no summary found in output") := by
  rw [getSummary, getSummaryLoop_spec msgType (scanLines output) none]
  simp only [Option.or_none]

/-! ### Bounded output capture (C6)

`Repository.command` captures stdout and stderr of the subprocess into
size-limited buffers; the `limitedBuffer` type itself is not among the
sources (only `TestLimitedBuffer` refers to its `buf`/`limit` fields and its
`Write` method), so it is modelled from the spec. -/

/-- Modelled from the spec: the `limitedBuffer` used by `Repository.command`
for subprocess output capture is absent from the sources (only its test is
present).  Per the spec it holds the captured bytes and a size limit, and a
write that would push the contents past the limit is rejected with an
overflow error instead of truncating or growing the buffer. -/
structure limitedBuffer where
  buf : List Nat
  limit : Nat
  deriving DecidableEq, Repr

/-- Modelled from the spec: `limitedBuffer.Write` appends the chunk when the
resulting size stays within the limit and fails with the overflow error
otherwise. -/
def limitedBuffer.write (lb : limitedBuffer) (p : List Nat) : Except GoErr limitedBuffer :=
  if lb.limit < lb.buf.length + p.length then
    Except.error (GoErr.msg "output buffer limit exceeded")
  else Except.ok { lb with buf := lb.buf ++ p }

/-- Sequential writes of a list of chunks, stopping at the first error. -/
def limitedBuffer.writeAll (lb : limitedBuffer) : List (List Nat) → Except GoErr limitedBuffer
  | [] => Except.ok lb
  | c :: rest =>
    match lb.write c with
    | Except.error e => Except.error e
    | Except.ok lb2 => lb2.writeAll rest

theorem limitedBuffer_writeAll_general :
    ∀ (chunks : List (List Nat)) (lb : limitedBuffer), lb.buf.length ≤ lb.limit →
      lb.writeAll chunks =
        if lb.buf.length + (chunks.map List.length).sum ≤ lb.limit then
          Except.ok { buf := lb.buf ++ chunks.flatten, limit := lb.limit }
        else Except.error (GoErr.msg "output buffer limit exceeded")
  | [], lb, h => by
    simp [limitedBuffer.writeAll, h]
  | c :: rest, lb, h => by
    by_cases hover : lb.limit < lb.buf.length + c.length
    · have hw : lb.write c = Except.error (GoErr.msg "output buffer limit exceeded") := by
        simp [limitedBuffer.write, hover]
      simp only [limitedBuffer.writeAll, hw]
      rw [if_neg (by simp only [List.map_cons, List.sum_cons]; omega)]
    · have hw : lb.write c = Except.ok { lb with buf := lb.buf ++ c } := by
        simp [limitedBuffer.write, hover]
      simp only [limitedBuffer.writeAll, hw]
      rw [limitedBuffer_writeAll_general rest { lb with buf := lb.buf ++ c }
        (by simp only [List.length_append]; omega)]
      by_cases hall : lb.buf.length + ((c :: rest).map List.length).sum ≤ lb.limit
      · rw [if_pos (by
            simp only [List.length_append]
            simp only [List.map_cons, List.sum_cons] at hall
            omega),
          if_pos hall]
        simp
      · rw [if_neg (by
            simp only [List.length_append]
            simp only [List.map_cons, List.sum_cons] at hall
            omega),
          if_neg hall]

/-- C6: starting from an empty buffer with a configured limit, writing any
sequence of chunks succeeds — accumulating exactly their concatenation —
precisely when the total size is at or under the limit, and always fails
with the overflow error when the total exceeds it, regardless of how the
data is chunked. -/
theorem limitedBuffer_bounded (limit : Nat) (chunks : List (List Nat)) :
    limitedBuffer.writeAll { buf := [], limit := limit } chunks =
      if (chunks.map List.length).sum ≤ limit then
        Except.ok { buf := chunks.flatten, limit := limit }
      else Except.error (GoErr.msg "output buffer limit exceeded") := by
  rw [limitedBuffer_writeAll_general chunks { buf := [], limit := limit } (by simp)]
  simp

/-! ### Identifier parsing and printing (snapshots.go: ParseID / ID.String)

An `ID` is a 32-byte content hash; bytes are modelled as `Nat` values (the
encoder reduces mod 256 exactly where Go's `byte` type does).  `ParseID`
checks the encoded length and then hex-decodes; `ID.String` hex-encodes with
the lowercase alphabet. -/

/-- Byte size of an `ID` (`sha256.Size`). -/
def idSize : Nat := 32

/-- Value of one hex digit as decoded by `encoding/hex` (`fromHexChar`):
decimal digits, lowercase and uppercase hex letters are accepted. -/
def hexDigitVal (c : Char) : Option Nat :=
  if ('0' ≤ c) && (c ≤ '9') then some (c.toNat - 48)
  else if ('a' ≤ c) && (c ≤ 'f') then some (10 + (c.toNat - 97))
  else if ('A' ≤ c) && (c ≤ 'F') then some (10 + (c.toNat - 65))
  else none

/-- Lowercase hex alphabet of `encoding/hex` (`hextable`). -/
def hextable : List Char := "0123456789abcdef".toList

/-- Hex character of a digit value. -/
def hexCharOf (n : Nat) : Char := hextable.getD n '0'

/-- Encoding of one byte by `encoding/hex` (high nibble then low nibble,
lowercase); the `% 256` makes the byte wrap-around of Go's `byte` explicit. -/
def encodeByte (b : Nat) : List Char := [hexCharOf (b % 256 / 16), hexCharOf (b % 16)]

/-- Hex decoding of `encoding/hex.DecodeString`: consumes digit pairs,
failing on a non-hex character or a trailing odd character. -/
def decodeHex : List Char → Option (List Nat)
  | [] => some []
  | [_] => none
  | c1 :: c2 :: rest =>
    match hexDigitVal c1, hexDigitVal c2, decodeHex rest with
    | some v1, some v2, some bs => some ((v1 * 16 + v2) :: bs)
    | _, _, _ => none

/-- Embedding of `ID.String` (snapshots.go): lowercase hex encoding of the
identifier's bytes. -/
def idString (bs : List Nat) : String := String.mk (bs.flatMap encodeByte)

/-- Embedding of `ParseID` (snapshots.go): reject strings whose length is not
`hex.EncodedLen idSize = 64`, then hex-decode. -/
def ParseID (s : String) : Except GoErr (List Nat) :=
  if s.length ≠ 2 * idSize then Except.error (GoErr.msg "invalid length for ID")
  else
    match decodeHex s.toList with
    | none => Except.error (GoErr.msg "invalid ID")
    | some bs => Except.ok bs

theorem isLowerHexDigit_cases (c : Char) (h : isLowerHexDigit c = true) : c ∈ hextable := by
  simp only [isLowerHexDigit, Bool.or_eq_true, Bool.and_eq_true, decide_eq_true_eq] at h
  rw [← Char.ofNat_toNat c]
  rcases h with ⟨h1, h2⟩ | ⟨h1, h2⟩
  · have h1' : 48 ≤ c.toNat := h1
    have h2' : c.toNat ≤ 57 := h2
    generalize c.toNat = n at h1' h2' ⊢
    interval_cases n <;> decide
  · have h1' : 97 ≤ c.toNat := h1
    have h2' : c.toNat ≤ 102 := h2
    generalize c.toNat = n at h1' h2' ⊢
    interval_cases n <;> decide

theorem lowerHex_digit_round (c : Char) (h : isLowerHexDigit c = true) :
    ∃ v, hexDigitVal c = some v ∧ v < 16 ∧ hexCharOf v = c := by
  have hc := isLowerHexDigit_cases c h
  fin_cases hc <;> exact ⟨_, rfl, by decide, rfl⟩

theorem decodeHex_encode :
    ∀ cs : List Char, (∀ c ∈ cs, isLowerHexDigit c = true) → cs.length % 2 = 0 →
      ∃ bs, decodeHex cs = some bs ∧ bs.flatMap encodeByte = cs ∧ bs.length = cs.length / 2
  | [], _, _ => ⟨[], rfl, rfl, rfl⟩
  | [c], _, hlen => by
    simp only [List.length_cons, List.length_nil] at hlen
    omega
  | c1 :: c2 :: rest, hhex, hlen => by
    obtain ⟨bs, hdec, henc, hblen⟩ := decodeHex_encode rest
      (fun c hc => hhex c (by simp [hc]))
      (by simp only [List.length_cons] at hlen; omega)
    obtain ⟨v1, hv1, hv1lt, hc1⟩ := lowerHex_digit_round c1 (hhex c1 (by simp))
    obtain ⟨v2, hv2, hv2lt, hc2⟩ := lowerHex_digit_round c2 (hhex c2 (by simp))
    refine ⟨(v1 * 16 + v2) :: bs, ?_, ?_, ?_⟩
    · simp [decodeHex, hv1, hv2, hdec]
    · simp only [List.flatMap_cons, encodeByte]
      have e1 : (v1 * 16 + v2) % 256 / 16 = v1 := by omega
      have e2 : (v1 * 16 + v2) % 16 = v2 := by omega
      rw [e1, e2, hc1, hc2, henc]
      rfl
    · simp only [List.length_cons, hblen]
      omega

theorem decodeHex_err :
    ∀ (cs : List Char) (c : Char), c ∈ cs → hexDigitVal c = none → decodeHex cs = none
  | [], c, hc, _ => absurd hc (List.not_mem_nil c)
  | [c1], _, _, _ => rfl
  | c1 :: c2 :: rest, c, hc, hbad => by
    rcases List.mem_cons.mp hc with rfl | hc'
    · simp [decodeHex, hbad]
    · rcases List.mem_cons.mp hc' with rfl | hc''
      · simp only [decodeHex, hbad]
        cases hexDigitVal c1 <;> rfl
      · have := decodeHex_err rest c hc'' hbad
        simp only [decodeHex, this]
        cases hexDigitVal c1 <;> cases hexDigitVal c2 <;> rfl

theorem encodeHex_length (bs : List Nat) : (bs.flatMap encodeByte).length = 2 * bs.length := by
  induction bs with
  | nil => rfl
  | cons b rest ih =>
    simp only [List.flatMap_cons, List.length_append, ih, encodeByte, List.length_cons,
      List.length_nil]
    omega

/-- C8: `ParseID` and `ID.String` round-trip — every 64-character lowercase
hex string parses to an identifier of `idSize = 32` bytes whose string form
is the original string; `ParseID` errors on every string of the wrong length
and on every string containing a character the hex decoder rejects; and the
string form of any identifier is exactly twice as long as its byte form. -/
theorem parseID_roundtrip :
    (∀ s : String, s.length = 64 → (∀ c ∈ s.toList, isLowerHexDigit c = true) →
        ∃ bs, ParseID s = Except.ok bs ∧ bs.length = idSize ∧ idString bs = s)
      ∧ (∀ s : String, s.length ≠ 64 → ParseID s = Except.error (GoErr.msg "invalid length for ID"))
      ∧ (∀ (s : String) (c : Char), c ∈ s.toList → hexDigitVal c = none →
          ∃ e, ParseID s = Except.error e)
      ∧ (∀ bs : List Nat, (idString bs).length = 2 * bs.length) := by
  refine ⟨?_, ?_, ?_, ?_⟩
  · intro s hlen hhex
    have hlist : s.toList.length = 64 := by
      rw [← hlen]; rfl
    obtain ⟨bs, hdec, henc, hblen⟩ := decodeHex_encode s.toList hhex (by omega)
    have hdec' : decodeHex s.data = some bs := hdec
    refine ⟨bs, ?_, ?_, ?_⟩
    · simp [ParseID, idSize, hlen, hdec']
    · rw [hblen, hlist]; rfl
    · rw [idString, henc]
      cases s
      rfl
  · intro s hlen
    simp [ParseID, idSize, hlen]
  · intro s c hc hbad
    by_cases hlen : s.length = 64
    · refine ⟨GoErr.msg "invalid ID", ?_⟩
      have h0 : decodeHex s.data = none := decodeHex_err s.toList c hc hbad
      simp [ParseID, idSize, hlen, h0]
    · exact ⟨GoErr.msg "invalid length for ID", by simp [ParseID, idSize, hlen]⟩
  · intro bs
    have : (idString bs).length = (bs.flatMap encodeByte).length := rfl
    rw [this, encodeHex_length]

/-- Witness for `parseID_roundtrip` at concrete inputs: the 64-character
string `0123456789abcdef` repeated four times round-trips, the 8-character
string `deadbeef` is refused for its length, and a string containing `g` is
refused by the decoder. -/
theorem parseID_roundtrip_witness :
    (∃ bs, ParseID
          "0123456789abcdef0123456789abcdef0123456789abcdef0123456789abcdef"
          = Except.ok bs
        ∧ bs.length = idSize
        ∧ idString bs
          = "0123456789abcdef0123456789abcdef0123456789abcdef0123456789abcdef")
      ∧ ParseID "deadbeef" = Except.error (GoErr.msg "invalid length for ID")
      ∧ (∃ e, ParseID
          "g123456789abcdef0123456789abcdef0123456789abcdef0123456789abcdef"
          = Except.error e) :=
  ⟨parseID_roundtrip.1 _ (by decide) (by decide),
    parseID_roundtrip.2.1 _ (by decide),
    parseID_roundtrip.2.2.1 _ 'g' (by decide) (by decide)⟩

/-! ### One-time binary readiness check (restic.go: checkResticVersion)

The check consults the environment at most once per process: `sync.Once`
runs the body only when no outcome is stored yet, and the stored outcome —
error or success — is returned by every later call.  The process state is
the cached outcome (`resticCheckOnce`/`resticCheckErr`), modelled as
`Option (Option GoErr)`: `none` before the first call, and `some r`
afterwards where `r` is the outcome (`none` meaning success).  The
environment consulted by the body (binary lookup and `restic version`
output) is an explicit record, and the external `hashicorp/go-version`
library is abstracted as a parse function and an order on an arbitrary
version type. -/

/-- Environment visible to the readiness check: whether the binary resolves
on the search path, and the combined output of `restic version` (`none` when
running the command fails). -/
structure ResticEnv where
  binaryInPath : Bool
  versionOutput : Option String
  deriving DecidableEq, Repr

/-- Go `strings.Fields`: whitespace-separated fields of a string. -/
def goFields (s : String) : List String :=
  (s.split (fun c => c == ' ' || c == '\n' || c == '\t' || c == '\r')).filter
    (fun t => t ≠ "")

/-- Body of `checkResticVersion` (restic.go), run only on the first call:
fail when the binary is missing, when the version command fails, when its
output has fewer than two fields, when the second field does not parse, or
when the parsed version is below the minimum; succeed otherwise.
`newVersion` and `lt` abstract the external version library. -/
def computeResticCheck {V : Type} (newVersion : String → Option V) (lt : V → V → Bool)
    (env : ResticEnv) : Option GoErr :=
  if env.binaryInPath = false then some (GoErr.msg "restic not found in PATH")
  else
    match env.versionOutput with
    | none => some (GoErr.msg "failed to get restic version")
    | some out =>
      match goFields out with
      | [] => some (GoErr.msg "unexpected restic version output")
      | [_] => some (GoErr.msg "unexpected restic version output")
      | _ :: f1 :: _ =>
        match newVersion f1 with
        | none => some (GoErr.msg "failed to parse restic version")
        | some v =>
          match newVersion "0.16.0" with
          | none => some (GoErr.msg "invalid minimum version")
          | some minV =>
            if lt v minV then some (GoErr.msg "restic version is too old") else none

/-- Embedding of one call to `checkResticVersion` (restic.go): when an
outcome is cached it is returned unchanged without consulting the
environment; otherwise the body runs once and its outcome is stored.
Returns the outcome together with the next cache state. -/
def checkResticVersion {V : Type} (newVersion : String → Option V) (lt : V → V → Bool)
    (cache : Option (Option GoErr)) (env : ResticEnv) : Option GoErr × Option (Option GoErr) :=
  match cache with
  | some r => (r, some r)
  | none =>
    let r := computeResticCheck newVersion lt env
    (r, some r)

/-- C10: the readiness check caches its first outcome for the process
lifetime, failures included.  The first call computes the outcome from the
environment it sees; any later call returns that identical cached outcome
and the unchanged cache no matter how the environment has changed since —
in particular a cached failure, such as the missing-binary error, is
returned as-is even when the binary has meanwhile appeared, and a cached
success is never re-verified. -/
theorem checkResticVersion_cached {V : Type} (newVersion : String → Option V)
    (lt : V → V → Bool) (env1 env2 : ResticEnv) :
    (checkResticVersion newVersion lt none env1).1 = computeResticCheck newVersion lt env1
      ∧ checkResticVersion newVersion lt (checkResticVersion newVersion lt none env1).2 env2
          = ((checkResticVersion newVersion lt none env1).1,
              (checkResticVersion newVersion lt none env1).2)
      ∧ (∀ r : Option GoErr, checkResticVersion newVersion lt (some r) env2 = (r, some r))
      ∧ checkResticVersion newVersion lt
            (checkResticVersion newVersion lt none { binaryInPath := false, versionOutput := none }).2
            { binaryInPath := true, versionOutput := some "restic 0.17.0" }
          = (some (GoErr.msg "restic not found in PATH"),
              some (some (GoErr.msg "restic not found in PATH"))) :=
  ⟨rfl, rfl, fun _ => rfl, rfl⟩

end ResticW
